import Mathlib

/-!
Verification of the wave scheduler, batch processor, job lifecycle tracker,
rate limiter and resumable real-time processor of the news-classification
repository, as a shallow embedding in Lean.

Sources embedded:
- `src/batch_processing/process_large_batch.py` (wave scheduler, real-time loop)
- `src/batch_processor.py` (batch preparation, polling, result retrieval)
- `src/news_analyzer.py` (rate limiter constants and dispatch throttle)
-/

namespace NewsClassification

/-! ### Configuration constants

From `process_large_batch.py` (Tier-1 configuration) and `news_analyzer.py`.
`SAFE_ENQUEUED_TOKENS` is `int(BATCH_ENQUEUED_TOKENS_LIMIT * 0.9)` in the
source; the float product `10_000_000 * 0.9` truncates to exactly
`9_000_000`, which is `10_000_000 * 9 / 10` in integer arithmetic. -/

def BATCH_SIZE : Nat := 1000

def ITEMS_PER_DAY : Nat := 400

def AVG_INPUT_TOKENS_PER_ARTICLE : Nat := 2800

def BATCH_ENQUEUED_TOKENS_LIMIT : Nat := 10000000

def SAFE_ENQUEUED_TOKENS : Nat := BATCH_ENQUEUED_TOKENS_LIMIT * 9 / 10

def MAX_ARTICLES_PER_WAVE : Nat := SAFE_ENQUEUED_TOKENS / AVG_INPUT_TOKENS_PER_ARTICLE

/-- `BATCH_LIMIT = 500` from `news_analyzer.py`; the default `max_batch_size`
of `BatchProcessor.__init__` in `batch_processor.py`. -/
def BATCH_LIMIT : Nat := 500

/-! ### Wave partitioning (`process_large_batch.py`) -/

/-- Python slice `items[a:b]` (for `0 ≤ a ≤ b`, clamped to the list length). -/
def pySlice (items : List α) (a b : Nat) : List α :=
  (items.drop a).take (b - a)

/-- `split_into_batches(items, batch_size)`:
`[items[i:i + batch_size] for i in range(0, len(items), batch_size)]`.
`range(0, n, b)` has `⌈n/b⌉` elements `0, b, 2b, …` (for `b > 0`). -/
def split_into_batches (items : List α) (batch_size : Nat) : List (List α) :=
  (List.range ((items.length + batch_size - 1) / batch_size)).map
    (fun k => pySlice items (k * batch_size) (k * batch_size + batch_size))

/-- `num_waves = (len(items) + MAX_ARTICLES_PER_WAVE - 1) // MAX_ARTICLES_PER_WAVE`. -/
def numWaves (n W : Nat) : Nat := (n + W - 1) / W

/-- The wave construction loop of `process_with_batch_api`:
for `wave_num in range(num_waves)`, `start = wave_num * W`,
`end = min(start + W, len(items))`, `wave = items[start:end]`. -/
def makeWaves (items : List α) (W : Nat) : List (List α) :=
  (List.range (numWaves items.length W)).map
    (fun k => pySlice items (k * W) (min (k * W + W) items.length))

/-! ### Work items and the resumable real-time processor
(`process_with_realtime_api` in `process_large_batch.py`)

A work item is a dict `{id, title, contents}`; ids are opaque values compared
for equality, embedded with an id type parameter `ι`.  The analysis payload
returned by `analyzer.analyze_with_contents` is opaque to the scheduling
layer, embedded as a type parameter `β`; the per-item call either returns a
payload or raises (caught by the loop), embedded as `Except String β`. -/

structure WorkItem (ι : Type) where
  id : ι
  title : String
  contents : String
deriving DecidableEq

/-- An entry of the persisted `results` list: on success the loop appends
`result.model_dump()` plus `original_id`; on a per-item error it appends
`{'original_id': item_id, 'error': str(e)}`. -/
inductive RTEntry (ι β : Type) where
  | ok (original_id : ι) (payload : β)
  | error (original_id : ι) (msg : String)
deriving DecidableEq

/-- `r.get('original_id', r.get('page_title'))` for entries written by this
loop: every entry carries `original_id`. -/
def RTEntry.originalId : RTEntry ι β → ι
  | .ok i _ => i
  | .error i _ => i

/-- The per-item loop of `process_with_realtime_api`, over the filtered
`items_to_process`.  Before each item the daily quota is checked
(`if today_count >= items_per_day: break`); a successful call appends an ok
entry and increments `today_count`; a failed call appends an error entry and
does not count toward the quota.  Returns the final `results` list and the
list of items actually sent to the analyzer, in call order. -/
def realtime_go (analyze : WorkItem ι → Except String β) (items_per_day : Nat) :
    List (WorkItem ι) → Nat → List (RTEntry ι β) →
    List (RTEntry ι β) × List (WorkItem ι)
  | [], _, results => (results, [])
  | item :: rest, today_count, results =>
    if items_per_day ≤ today_count then (results, [])
    else
      match analyze item with
      | .ok payload =>
        let r := realtime_go analyze items_per_day rest (today_count + 1)
          (results ++ [.ok item.id payload])
        (r.1, item :: r.2)
      | .error e =>
        let r := realtime_go analyze items_per_day rest today_count
          (results ++ [.error item.id e])
        (r.1, item :: r.2)

/-- One invocation of `process_with_realtime_api`: load prior results
(`results`), derive `processed_ids`, filter `items_to_process`, run the loop
with `today_count = 0`.  The returned `.1` is the final `results` list (what
the final `json.dump` persists); `.2` is the list of items dispatched. -/
def process_with_realtime_api [DecidableEq ι]
    (analyze : WorkItem ι → Except String β) (prior : List (RTEntry ι β))
    (items : List (WorkItem ι)) (items_per_day : Nat) :
    List (RTEntry ι β) × List (WorkItem ι) :=
  let processed_ids := prior.map RTEntry.originalId
  let items_to_process :=
    items.filter (fun item => !decide (item.id ∈ processed_ids))
  realtime_go analyze items_per_day items_to_process 0 prior

/-- The entry a successful call appends for an item. -/
def okEntry (f : WorkItem ι → β) (item : WorkItem ι) : RTEntry ι β :=
  .ok item.id (f item)

/-- The entry that the loop body appends for a dispatched item: an ok entry
if `analyzer.analyze_with_contents` returns, an error entry if it raises. -/
def callEntry (analyze : WorkItem ι → Except String β) (item : WorkItem ι) :
    RTEntry ι β :=
  match analyze item with
  | .ok p => .ok item.id p
  | .error e => .error item.id e

/-- Repeated invocations of `process_with_realtime_api` with an
always-succeeding analyzer, starting from no checkpoint file, re-loading the
persisted results of the previous invocation each time (the resumption pattern
of `process_large_batch.py` run once per day). -/
def realtimeRuns [DecidableEq ι] (f : WorkItem ι → β)
    (items : List (WorkItem ι)) (q : Nat) : Nat → List (RTEntry ι β)
  | 0 => []
  | n + 1 =>
    (process_with_realtime_api (fun it => .ok (f it))
      (realtimeRuns f items q n) items q).1

/-- Concrete data: 1000 pending work items with distinct ids and no prior
checkpoint (Scenario B of the specification). -/
def demoItems : List (WorkItem Nat) :=
  (List.range 1000).map (fun k => ⟨k, "", ""⟩)

/-! ### Batch preparation (`BatchProcessor.prepare_batch_from_contents`) -/

/-- One line of the batch JSONL file: the opaque `custom_id` and the request
text `f"Title: {title}\n\nContent: {content}"` (the fixed system prompt and
generation config carry no per-item data and are omitted). -/
structure BatchRequest where
  custom_id : String
  text : String
deriving DecidableEq

/-- `prepare_batch_from_contents(contents, batch_name)`: raises `ValueError`
if `len(contents) > self.max_batch_size`; otherwise, for each `(idx, item)`
with non-empty content, emits a request with `custom_id = f"request_{idx}"`
and records `id_mapping[custom_id] = item_id`.  Returns the written requests
and the persisted id mapping.  The size check happens before anything is
built or written. -/
def prepare_batch_from_contents (max_batch_size : Nat)
    (contents : List (WorkItem ι)) :
    Except String (List BatchRequest × List (String × ι)) :=
  if max_batch_size < contents.length then
    .error ("Batch size " ++ toString contents.length ++ " exceeds max "
      ++ toString max_batch_size ++ ". Split into multiple batches.")
  else
    let kept := contents.enum.filter (fun p => !(p.2.contents == ""))
    .ok
      (kept.map (fun p =>
        ⟨"request_" ++ toString p.1,
          "Title: " ++ p.2.title ++ "\n\nContent: " ++ p.2.contents⟩),
       kept.map (fun p => ("request_" ++ toString p.1, p.2.id)))

/-! ### Result retrieval (`BatchProcessor.retrieve_results`)

Each downloaded line goes through `json.loads(line)` (which raises on
malformed JSON), then `result_data.get("custom_id")`, then — only when a
`"response"` key is present — the response text is extracted and parsed with
a second `json.loads` (which also raises on malformed payloads); lines
without a `"response"` key are logged and skipped.  A line is embedded by
what those parses yield. -/

/-- The JSON payload parsed out of `response.candidates[0].content.parts[0]
.text`, with each field optional (`parsed.get(...)`). JSON numbers are
embedded as rationals. -/
structure ParsedPayload where
  page_title : Option String
  is_financial : Option String
  country : Option (List String)
  sector : Option (List String)
  companies : Option (List String)
  confident_score : Option ℚ
  sentiment : Option String
  summary_en : Option String
  summary_tr : Option String
deriving DecidableEq

/-- `ClassificationResultFromText` as constructed by `retrieve_results`
(`models.py` fields that the constructor call sets). -/
structure ClassificationResultFromText where
  page_title : Option String
  is_financial : Option String
  country : List String
  sector : List String
  companies : List String
  confident_score : ℚ
  sentiment : Option String
  summary_en : Option String
  summary_tr : Option String
  extracted_characters : Nat
deriving DecidableEq

/-- The `"response"` value of a line: either its inner text fails the second
`json.loads` (or the candidates path is invalid), or it parses to a payload. -/
inductive ResponseBody where
  | badText
  | parsedText (payload : ParsedPayload)
deriving DecidableEq

/-- One line of the downloaded results file, as seen through `json.loads`:
either the line itself is malformed JSON, or it is a record with an optional
`custom_id` and an optional `response`. -/
inductive ResultLine where
  | malformed
  | record (custom_id : Option String) (response : Option ResponseBody)
deriving DecidableEq

/-- The `ClassificationResultFromText(...)` constructor call of
`retrieve_results`, with the source's `parsed.get(key, default)` defaults and
`extracted_characters=0`. -/
def mkResult (p : ParsedPayload) : ClassificationResultFromText :=
  { page_title := p.page_title
    is_financial := p.is_financial
    country := p.country.getD []
    sector := p.sector.getD []
    companies := p.companies.getD []
    confident_score := p.confident_score.getD 0
    sentiment := p.sentiment
    summary_en := p.summary_en
    summary_tr := p.summary_tr
    extracted_characters := 0 }

/-- The line-parsing loop of `retrieve_results`: returns the accumulated
results and the list of `custom_id`s warned about ("No response for ...");
an unguarded `json.loads` failure propagates as an exception (`.error`). -/
def retrieveLoop : List ResultLine →
    Except String (List ClassificationResultFromText × List (Option String))
  | [] => .ok ([], [])
  | .malformed :: _ => .error "json.loads(line) raised JSONDecodeError"
  | .record _ (some .badText) :: _ =>
    .error "json.loads(response_text) raised JSONDecodeError"
  | .record _ (some (.parsedText p)) :: rest =>
    (retrieveLoop rest).map (fun r => (mkResult p :: r.1, r.2))
  | .record cid none :: rest =>
    (retrieveLoop rest).map (fun r => (r.1, cid :: r.2))

/-- `retrieve_results`: loads the persisted id mapping (`url_mapping`) and
parses the downloaded lines.  The loaded mapping is never consulted — the
returned results are built from the response payloads alone. -/
def retrieve_results (_mapping : List (String × String))
    (lines : List ResultLine) :
    Except String (List ClassificationResultFromText × List (Option String)) :=
  retrieveLoop lines

/-- A line whose JSON parses end-to-end (no exception raised for it). -/
def lineWellFormed : ResultLine → Bool
  | .malformed => false
  | .record _ (some .badText) => false
  | _ => true

/-- A parsed line carrying a `"response"` key. -/
def lineHasResponse : ResultLine → Bool
  | .record _ (some _) => true
  | _ => false

/-- Concrete data: a representative well-formed response payload. -/
def samplePayload : ParsedPayload :=
  ⟨none, some "Yes", none, some [], some [], some 5, some "Neutral",
    some "ok", some "tamam"⟩

/-- Concrete data: a well-formed result line for opaque id `request_0`. -/
def sampleLine : ResultLine :=
  .record (some "request_0") (some (.parsedText samplePayload))

/-! ### Wave submission loop (`process_with_batch_api`, lines 122-160)

Each batch is prepared and submitted inside a `try` block; on success the
job is recorded and (except after the last batch) the loop sleeps 2 seconds;
any exception is caught, and if its message contains "429" the loop sleeps
60 seconds; in every case the loop then moves on to the next batch. -/

/-- The outcome of one batch's `try` body: both calls succeed, `prepare`
raises `ValueError`, `submit` raises an error whose text contains "429", or
`submit` raises some other error. -/
inductive BatchOutcome where
  | ok
  | prepareError
  | rateLimit429
  | submitOtherError
deriving DecidableEq

/-- Observable events of the wave submission loop: a call to
`processor.submit_batch` for batch `i`, a successful submission recorded for
batch `i`, and an `asyncio.sleep(secs)`. -/
inductive WaveEvent where
  | submitCall (i : Nat)
  | submitted (i : Nat)
  | sleep (secs : Nat)
deriving DecidableEq

/-- The events of one iteration of the submission loop (batch index `i` of
`n`): on success, submit and record the job, then `await asyncio.sleep(2)`
unless this is the last batch; a `ValueError` from `prepare` means `submit`
is never called; a "429" error is followed by `await asyncio.sleep(60)`;
any other error is only printed. -/
def waveChunk (n i : Nat) : BatchOutcome → List WaveEvent
  | .ok =>
    [.submitCall i, .submitted i] ++ (if i + 1 < n then [.sleep 2] else [])
  | .prepareError => []
  | .rateLimit429 => [.submitCall i, .sleep 60]
  | .submitOtherError => [.submitCall i]

/-- The submission loop over the batches of one wave (`n` batches total,
current batch index `i`), emitting its event trace.  All exceptions are
caught, so the trace always runs to the end of the wave. -/
def waveGo (n : Nat) : List BatchOutcome → Nat → List WaveEvent
  | [], _ => []
  | o :: rest, i => waveChunk n i o ++ waveGo n rest (i + 1)

/-- Event trace of submitting one wave whose batches have the given
outcomes. -/
def submitWave (outcomes : List BatchOutcome) : List WaveEvent :=
  waveGo outcomes.length outcomes 0

/-! ### Job polling (`BatchProcessor.wait_for_completion`)

The loop `while time.time() - start_time < max_wait_time` polls
`check_status`, returns on a terminal state, otherwise sleeps
`poll_interval`; polls are modelled as instantaneous, so poll `k` happens at
elapsed time `k * poll_interval`.  `states k` is the provider state string
returned by the `k`-th poll. -/

/-- Observable actions of `wait_for_completion`: sleeping between polls and
cancelling the remote job (which the source never does). -/
inductive WaitEvent where
  | sleep (secs : Nat)
  | cancelJob
deriving DecidableEq

/-- `state in ["JOB_STATE_SUCCEEDED", "JOB_STATE_FAILED",
"JOB_STATE_CANCELLED"]`. -/
def isTerminalState (s : String) : Bool :=
  s == "JOB_STATE_SUCCEEDED" || s == "JOB_STATE_FAILED"
    || s == "JOB_STATE_CANCELLED"

/-- The polling loop, with poll counter `k` and structural fuel (the loop
runs at most `max_wait_time` iterations when `poll_interval ≥ 1`, so the
fuel used below never runs out). -/
def wait_go (states : Nat → String) (poll_interval max_wait_time : Nat) :
    Nat → Nat → Bool × List WaitEvent
  | 0, _ => (false, [])
  | fuel + 1, k =>
    if k * poll_interval < max_wait_time then
      if states k == "JOB_STATE_SUCCEEDED" then (true, [])
      else if states k == "JOB_STATE_FAILED"
          || states k == "JOB_STATE_CANCELLED" then (false, [])
      else
        let r := wait_go states poll_interval max_wait_time fuel (k + 1)
        (r.1, .sleep poll_interval :: r.2)
    else (false, [])

/-- `wait_for_completion(job_id, poll_interval, max_wait_time)`: the returned
boolean plus the trace of sleeps/cancellations it performs. -/
def wait_for_completion (states : Nat → String)
    (poll_interval max_wait_time : Nat) : Bool × List WaitEvent :=
  wait_go states poll_interval max_wait_time (max_wait_time + 1) 0

/-- Concrete data: a job that is running at the first poll and `FAILED` from
the second poll on (Scenario C). -/
def demoStates (k : Nat) : String :=
  if k = 0 then "JOB_STATE_RUNNING" else "JOB_STATE_FAILED"

/-! ### Rate limiter (`NewsAnalyzer.llm_analyzer`, `news_analyzer.py`)

Inside `async with self._rate_limit_lock`: read `time.time()`, compute
`time_since_last`, sleep the residual interval when it is below
`MIN_REQUEST_INTERVAL`, then set `self._last_request_time = time.time()` and
start the call.  Time is embedded as rationals (seconds); the source literal
`0.05` is the rational `1/20`.  Sequential dispatches are modelled by the
arrival time of each caller at the lock; the call start is the instant the
lock block finishes. -/

def MIN_REQUEST_INTERVAL : ℚ := 1 / 20

/-- One pass through the rate-limit lock: given `last_request_time` and the
caller's arrival time, returns (call start time, new `last_request_time`). -/
def rateLimitStep (minInterval last arrival : ℚ) : ℚ × ℚ :=
  if arrival - last < minInterval then
    (arrival + (minInterval - (arrival - last)),
     arrival + (minInterval - (arrival - last)))
  else (arrival, arrival)

/-- The sequence of (start, last) pairs for sequential dispatches with the
given arrival times; `_last_request_time` starts at `0.0`. -/
def dispatchTimes (minInterval : ℚ) (arrivals : Nat → ℚ) : Nat → ℚ × ℚ
  | 0 => rateLimitStep minInterval 0 (arrivals 0)
  | k + 1 =>
    rateLimitStep minInterval (dispatchTimes minInterval arrivals k).2
      (arrivals (k + 1))

/-- Start time of the `k`-th dispatched call. -/
def startTime (minInterval : ℚ) (arrivals : Nat → ℚ) (k : Nat) : ℚ :=
  (dispatchTimes minInterval arrivals k).1

/-! ## Theorems -/

theorem length_pySlice (items : List α) (a b : Nat) :
    (pySlice items a b).length = min (b - a) (items.length - a) := by
  simp [pySlice]

theorem length_makeWaves (items : List α) (W : Nat) :
    (makeWaves items W).length = numWaves items.length W := by
  simp [makeWaves]

theorem mem_makeWaves_length_le {items : List α} {W : Nat} {w : List α}
    (hw : w ∈ makeWaves items W) : w.length ≤ W := by
  rcases List.mem_map.mp hw with ⟨k, -, rfl⟩
  rw [length_pySlice]
  omega

theorem getD_map_range (f : Nat → α) (n k : Nat) (d : α) (hk : k < n) :
    ((List.range n).map f).getD k d = f k := by
  simp [List.getD, List.getElem?_map, List.getElem?_range, hk]

theorem length_split_into_batches (items : List α) (batch_size : Nat) :
    (split_into_batches items batch_size).length
      = (items.length + batch_size - 1) / batch_size := by
  simp [split_into_batches]

theorem mem_split_into_batches_length_le {items : List α} {batch_size : Nat}
    {b : List α} (hb : b ∈ split_into_batches items batch_size) :
    b.length ≤ batch_size := by
  rcases List.mem_map.mp hb with ⟨k, -, rfl⟩
  rw [length_pySlice]
  omega

theorem makeWaves_map_length (items : List α) (W : Nat) :
    (makeWaves items W).map List.length
      = (List.range (numWaves items.length W)).map
          (fun k => min W (items.length - k * W)) := by
  rw [makeWaves, List.map_map]
  refine List.map_congr_left (fun k _ => ?_)
  simp only [Function.comp_apply, length_pySlice]
  omega

/-- C1: for every configuration with `avg_input_tokens > 0`, with
`max_items_per_wave = safe_budget / avg_input_tokens`, every wave produced by
the scheduler's contiguous partition satisfies
`len(wave) * avg_input_tokens ≤ safe_budget`; in particular this holds for the
source constants `SAFE_ENQUEUED_TOKENS` and `AVG_INPUT_TOKENS_PER_ARTICLE`. -/
theorem wave_tokens_within_budget (safeBudget avg : Nat) (items : List α)
    (_ha : 0 < avg) :
    (∀ w ∈ makeWaves items (safeBudget / avg), w.length * avg ≤ safeBudget) ∧
    (∀ w ∈ makeWaves items MAX_ARTICLES_PER_WAVE,
      w.length * AVG_INPUT_TOKENS_PER_ARTICLE ≤ SAFE_ENQUEUED_TOKENS) := by
  constructor
  · intro w hw
    calc w.length * avg
        ≤ safeBudget / avg * avg :=
          Nat.mul_le_mul_right _ (mem_makeWaves_length_le hw)
      _ ≤ safeBudget := Nat.div_mul_le_self _ _
  · intro w hw
    calc w.length * AVG_INPUT_TOKENS_PER_ARTICLE
        ≤ MAX_ARTICLES_PER_WAVE * AVG_INPUT_TOKENS_PER_ARTICLE :=
          Nat.mul_le_mul_right _ (mem_makeWaves_length_le hw)
      _ ≤ SAFE_ENQUEUED_TOKENS := Nat.div_mul_le_self _ _

theorem wave_tokens_within_budget_witness :
    [(0 : Nat)].length * 2800 ≤ 9000000 :=
  (wave_tokens_within_budget 9000000 2800 [(0 : Nat)] (by decide)).1
    [(0 : Nat)] (by decide)

/-- C2: for every item list of length `N` and every `W > 0` the scheduler
produces exactly `⌈N / W⌉` waves, wave `k` being the contiguous slice
`items[k*W : min((k+1)*W, N)]`; each wave is split into `⌈len(wave)/B⌉`
contiguous batches each of size `≤ B`; and for `N = 12000`, `W = 3200`,
`B = 1000` the wave sizes are `[3200, 3200, 3200, 2400]` and the batch counts
per wave are `[4, 4, 4, 3]`. -/
theorem waves_and_batches_partition (items : List α) (W B : Nat)
    (hW : 0 < W) (hB : 0 < B) :
    (makeWaves items W).length = (items.length + W - 1) / W ∧
    (∀ k, k < (items.length + W - 1) / W →
      (makeWaves items W).getD k []
        = pySlice items (k * W) (min ((k + 1) * W) items.length)) ∧
    (∀ w ∈ makeWaves items W,
      (split_into_batches w B).length = (w.length + B - 1) / B ∧
      ∀ b ∈ split_into_batches w B, b.length ≤ B) ∧
    (items.length = 12000 → W = 3200 → B = 1000 →
      (makeWaves items W).map List.length = [3200, 3200, 3200, 2400] ∧
      (makeWaves items W).map (fun w => (split_into_batches w B).length)
        = [4, 4, 4, 3]) := by
  refine ⟨length_makeWaves items W, ?_, ?_, ?_⟩
  · intro k hk
    have hk' : k < numWaves items.length W := hk
    rw [makeWaves, getD_map_range _ _ _ _ hk']
    have hkW : (k + 1) * W = k * W + W := by ring
    rw [hkW]
  · intro w hw
    exact ⟨length_split_into_batches w B,
      fun b hb => mem_split_into_batches_length_le hb⟩
  · intro h12 hW32 hB1
    subst hW32; subst hB1
    constructor
    · rw [makeWaves_map_length, h12]
      decide
    · have h1 : (makeWaves items 3200).map
            (fun w => (split_into_batches w 1000).length)
          = ((makeWaves items 3200).map List.length).map
              (fun n => (n + 1000 - 1) / 1000) := by
        rw [List.map_map]
        exact List.map_congr_left (fun w _ => by
          rw [Function.comp_apply, length_split_into_batches])
      rw [h1, makeWaves_map_length, h12]
      decide

theorem waves_and_batches_partition_witness :
    (makeWaves (List.range 12000) 3200).map List.length
        = [3200, 3200, 3200, 2400] ∧
    (makeWaves (List.range 12000) 3200).map
        (fun w => (split_into_batches w 1000).length) = [4, 4, 4, 3] :=
  (waves_and_batches_partition (List.range 12000) 3200 1000
    (by decide) (by decide)).2.2.2 (by simp) rfl rfl

theorem realtime_go_all_ok (f : WorkItem ι → β) (q : Nat) :
    ∀ (todo : List (WorkItem ι)) (cnt : Nat) (acc : List (RTEntry ι β)),
      realtime_go (fun it => .ok (f it)) q todo cnt acc
        = (acc ++ (todo.take (q - cnt)).map (okEntry f),
           todo.take (q - cnt)) := by
  intro todo
  induction todo with
  | nil => intro cnt acc; simp [realtime_go]
  | cons item rest ih =>
    intro cnt acc
    rw [realtime_go]
    by_cases h : q ≤ cnt
    · rw [if_pos h]
      have : q - cnt = 0 := by omega
      simp [this]
    · rw [if_neg h]
      have hq : q - cnt = (q - (cnt + 1)) + 1 := by omega
      rw [hq]
      simp only [List.take_succ_cons, List.map_cons]
      rw [ih (cnt + 1) (acc ++ [RTEntry.ok item.id (f item)])]
      simp [okEntry]

theorem take_add_split (l : List α) (m n : Nat) :
    l.take (m + n) = l.take m ++ (l.drop m).take n := by
  induction m generalizing l with
  | zero => simp
  | succ m ih =>
    cases l with
    | nil => simp
    | cons a t =>
      have hmn : m + 1 + n = (m + n) + 1 := by omega
      rw [hmn]
      simp only [List.take_succ_cons, List.drop_succ_cons, List.cons_append,
        ih t]

theorem filter_processed_eq_drop [DecidableEq ι]
    (items : List (WorkItem ι)) (m : Nat)
    (h : (items.map WorkItem.id).Nodup) :
    items.filter
        (fun item => !decide (item.id ∈ (items.take m).map WorkItem.id))
      = items.drop m := by
  have hsplit : (items.take m).map WorkItem.id ++ (items.drop m).map WorkItem.id
      = items.map WorkItem.id := by
    rw [← List.map_append, List.take_append_drop]
  have hdisj : List.Disjoint ((items.take m).map WorkItem.id)
      ((items.drop m).map WorkItem.id) :=
    List.disjoint_of_nodup_append (by rw [hsplit]; exact h)
  have h1 : (items.take m).filter
      (fun item => !decide (item.id ∈ (items.take m).map WorkItem.id)) = [] := by
    rw [List.filter_eq_nil_iff]
    intro a ha
    simp only [Bool.not_eq_true', decide_eq_false_iff_not, not_not]
    exact List.mem_map_of_mem _ ha
  have h2 : (items.drop m).filter
      (fun item => !decide (item.id ∈ (items.take m).map WorkItem.id))
      = items.drop m := by
    rw [List.filter_eq_self]
    intro a ha
    simp only [Bool.not_eq_true', decide_eq_false_iff_not]
    exact fun hmem => hdisj hmem (List.mem_map_of_mem _ ha)
  suffices hs : (items.take m ++ items.drop m).filter
      (fun item => !decide (item.id ∈ (items.take m).map WorkItem.id))
      = items.drop m by
    rw [List.take_append_drop] at hs
    exact hs
  rw [List.filter_append, h1, h2, List.nil_append]

theorem run_from_checkpoint [DecidableEq ι] (f : WorkItem ι → β)
    (items : List (WorkItem ι)) (q m : Nat)
    (h : (items.map WorkItem.id).Nodup) :
    process_with_realtime_api (fun it => .ok (f it))
        ((items.take m).map (okEntry f)) items q
      = ((items.take (m + q)).map (okEntry f), (items.drop m).take q) := by
  have hids : ((items.take m).map (okEntry f)).map RTEntry.originalId
      = (items.take m).map WorkItem.id := by
    rw [List.map_map]
    rfl
  simp only [process_with_realtime_api, hids,
    filter_processed_eq_drop items m h, realtime_go_all_ok, Nat.sub_zero]
  rw [← List.map_append, ← take_add_split]

theorem realtimeRuns_eq [DecidableEq ι] (f : WorkItem ι → β)
    (items : List (WorkItem ι)) (q : Nat)
    (h : (items.map WorkItem.id).Nodup) :
    ∀ n, realtimeRuns f items q n = (items.take (n * q)).map (okEntry f) := by
  intro n
  induction n with
  | zero => simp [realtimeRuns]
  | succ n ih =>
    rw [realtimeRuns, ih, run_from_checkpoint f items q (n * q) h]
    have : n * q + q = (n + 1) * q := by ring
    rw [this]

theorem demoItems_ids : demoItems.map WorkItem.id = List.range 1000 := by
  rw [demoItems, List.map_map]
  exact List.map_id _

theorem demoItems_ids_nodup : (demoItems.map WorkItem.id).Nodup := by
  rw [demoItems_ids]
  exact List.nodup_range 1000

/-- C7 (amended): with an always-succeeding analyzer, one invocation appends
exactly the first `items_per_day` still-unprocessed items (so
`min(items_per_day, pending)` items are processed, the loop stops at the
quota, and the accumulated result list is what is persisted); with
`items_per_day = 400` and 1000 pending items with unique ids and no prior
checkpoint, the first invocation processes exactly 400 (leaving 600 pending),
the second processes the next 400 (total 800), and only a third invocation
completes all 1000. -/
theorem realtime_daily_quota [DecidableEq ι] (f : WorkItem ι → β)
    (prior : List (RTEntry ι β)) (items : List (WorkItem ι)) (q : Nat) :
    (process_with_realtime_api (fun it => .ok (f it)) prior items q
      = (prior ++
          ((items.filter (fun item =>
              !decide (item.id ∈ prior.map RTEntry.originalId))).take q).map
            (okEntry f),
         (items.filter (fun item =>
            !decide (item.id ∈ prior.map RTEntry.originalId))).take q)) ∧
    ((items.map WorkItem.id).Nodup → items.length = 1000 → q = 400 →
      (realtimeRuns f items q 1).length = 400 ∧
      (realtimeRuns f items q 2).length = 800 ∧
      (realtimeRuns f items q 3).length = 1000) := by
  constructor
  · simp only [process_with_realtime_api, realtime_go_all_ok, Nat.sub_zero]
  · intro hnodup hlen hq
    subst hq
    refine ⟨?_, ?_, ?_⟩ <;>
      rw [realtimeRuns_eq f items 400 hnodup] <;>
      simp [hlen]

/-- C7 counterexample: contrary to Scenario B, the second invocation does not
process "the remaining 600": after two invocations with `items_per_day = 400`
only 800 of the 1000 items are recorded, not all 1000. -/
theorem realtime_second_invocation_incomplete :
    (realtimeRuns (fun _ : WorkItem Nat => ()) demoItems 400 2).length = 800 ∧
    (realtimeRuns (fun _ : WorkItem Nat => ()) demoItems 400 2).length
      ≠ 1000 := by
  rw [realtimeRuns_eq (fun _ => ()) demoItems 400 demoItems_ids_nodup 2]
  constructor <;> simp [demoItems]

theorem realtime_daily_quota_witness :
    (realtimeRuns (fun _ : WorkItem Nat => ()) demoItems 400 1).length = 400 ∧
    (realtimeRuns (fun _ : WorkItem Nat => ()) demoItems 400 3).length
      = 1000 := by
  have h := (realtime_daily_quota (fun _ : WorkItem Nat => ()) [] demoItems
    400).2 demoItems_ids_nodup (by simp [demoItems]) rfl
  exact ⟨h.1, h.2.2⟩

theorem originalId_callEntry (analyze : WorkItem ι → Except String β)
    (item : WorkItem ι) : (callEntry analyze item).originalId = item.id := by
  cases h : analyze item <;> simp [callEntry, h, RTEntry.originalId]

theorem realtime_go_fst (analyze : WorkItem ι → Except String β) (q : Nat) :
    ∀ (todo : List (WorkItem ι)) (cnt : Nat) (acc : List (RTEntry ι β)),
      (realtime_go analyze q todo cnt acc).1
        = acc ++ ((realtime_go analyze q todo cnt acc).2).map
            (callEntry analyze) := by
  intro todo
  induction todo with
  | nil => intro cnt acc; simp [realtime_go]
  | cons item rest ih =>
    intro cnt acc
    rw [realtime_go]
    by_cases h : q ≤ cnt
    · simp [if_pos h]
    · rw [if_neg h]
      cases hcall : analyze item with
      | ok p =>
        simp only [List.map_cons]
        rw [ih (cnt + 1) (acc ++ [RTEntry.ok item.id p])]
        simp [callEntry, hcall]
      | error e =>
        simp only [List.map_cons]
        rw [ih cnt (acc ++ [RTEntry.error item.id e])]
        simp [callEntry, hcall]

theorem realtime_go_snd_take (analyze : WorkItem ι → Except String β)
    (q : Nat) :
    ∀ (todo : List (WorkItem ι)) (cnt : Nat) (acc : List (RTEntry ι β)),
      ∃ m, (realtime_go analyze q todo cnt acc).2 = todo.take m := by
  intro todo
  induction todo with
  | nil => intro cnt acc; exact ⟨0, by simp [realtime_go]⟩
  | cons item rest ih =>
    intro cnt acc
    rw [realtime_go]
    by_cases h : q ≤ cnt
    · exact ⟨0, by simp [if_pos h]⟩
    · rw [if_neg h]
      cases hcall : analyze item with
      | ok p =>
        obtain ⟨m, hm⟩ := ih (cnt + 1) (acc ++ [RTEntry.ok item.id p])
        exact ⟨m + 1, by simp [hm]⟩
      | error e =>
        obtain ⟨m, hm⟩ := ih cnt (acc ++ [RTEntry.error item.id e])
        exact ⟨m + 1, by simp [hm]⟩

/-- C8: assuming unique stable item ids (and a checkpoint whose recorded ids
are distinct, as every checkpoint written by this processor is), re-running
with the same checkpoint and item set dispatches only items whose ids are not
recorded in the checkpoint; the recorded id set after the run is a superset of
the one before; and no id occurs twice among the recorded results. -/
theorem realtime_resume_idempotent [DecidableEq ι]
    (analyze : WorkItem ι → Except String β) (prior : List (RTEntry ι β))
    (items : List (WorkItem ι)) (q : Nat)
    (hprior : (prior.map RTEntry.originalId).Nodup)
    (hitems : (items.map WorkItem.id).Nodup) :
    (∀ c ∈ (process_with_realtime_api analyze prior items q).2,
        ¬ c.id ∈ prior.map RTEntry.originalId) ∧
    (∀ x ∈ prior.map RTEntry.originalId,
        x ∈ (process_with_realtime_api analyze prior items q).1.map
          RTEntry.originalId) ∧
    ((process_with_realtime_api analyze prior items q).1.map
        RTEntry.originalId).Nodup := by
  obtain ⟨m, hm⟩ : ∃ m, (process_with_realtime_api analyze prior items q).2
      = (items.filter (fun item =>
          !decide (item.id ∈ prior.map RTEntry.originalId))).take m := by
    simp only [process_with_realtime_api]
    exact realtime_go_snd_take analyze q _ 0 prior
  have hfst : (process_with_realtime_api analyze prior items q).1
      = prior ++ ((process_with_realtime_api analyze prior items q).2).map
          (callEntry analyze) := by
    simp only [process_with_realtime_api]
    exact realtime_go_fst analyze q _ 0 prior
  have hmem_not : ∀ c ∈ (process_with_realtime_api analyze prior items q).2,
      ¬ c.id ∈ prior.map RTEntry.originalId := by
    intro c hc
    rw [hm] at hc
    have hc' := (List.take_sublist m _).mem hc
    have hp := List.of_mem_filter hc'
    simpa using hp
  refine ⟨hmem_not, ?_, ?_⟩
  · intro x hx
    rw [hfst, List.map_append]
    exact List.mem_append_left _ hx
  · have hfun : RTEntry.originalId ∘ callEntry analyze
        = (WorkItem.id : WorkItem ι → ι) :=
      funext fun it => originalId_callEntry analyze it
    rw [hfst, List.map_append, List.map_map, hfun, hm, List.nodup_append]
    refine ⟨hprior, ?_, ?_⟩
    · exact hitems.sublist (List.Sublist.map _
        ((List.take_sublist _ _).trans (List.filter_sublist _)))
    · rw [List.disjoint_left]
      intro a ha hb
      obtain ⟨c, hc, rfl⟩ := List.mem_map.mp hb
      exact hmem_not c (by rw [hm]; exact hc) ha

theorem realtime_resume_idempotent_witness :
    ((process_with_realtime_api
        (fun it : WorkItem Nat =>
          if it.id = 0 then Except.error "boom" else Except.ok ())
        [RTEntry.ok 5 ()]
        [⟨0, "", ""⟩, ⟨5, "", ""⟩, ⟨7, "", ""⟩] 10).1.map
        RTEntry.originalId).Nodup :=
  (realtime_resume_idempotent
    (fun it : WorkItem Nat =>
      if it.id = 0 then Except.error "boom" else Except.ok ())
    [RTEntry.ok 5 ()]
    [⟨0, "", ""⟩, ⟨5, "", ""⟩, ⟨7, "", ""⟩] 10
    (by decide) (by decide)).2.2

/-- C3 (code evaluated at the failing input): `retrieve_results` is
independent of the loaded id mapping — the mapping cannot influence any
returned Result — and concretely, for a mapping that associates opaque id
`request_0` with original item id `item_42`, the Result produced for the
`request_0` line is built from the response payload alone and carries no
field derived from `item_42`. -/
theorem retrieve_results_ignores_mapping :
    (∀ (m₁ m₂ : List (String × String)) (lines : List ResultLine),
      retrieve_results m₁ lines = retrieve_results m₂ lines) ∧
    retrieve_results [("request_0", "item_42")] [sampleLine]
      = .ok ([⟨none, some "Yes", [], [], [], 5, some "Neutral", some "ok",
          some "tamam", 0⟩], []) :=
  ⟨fun _ _ _ => rfl, rfl⟩

theorem retrieveLoop_replicate_malformed (rest : List ResultLine) :
    ∀ n, retrieveLoop (List.replicate n sampleLine
        ++ ResultLine.malformed :: rest)
      = .error "json.loads(line) raised JSONDecodeError" := by
  intro n
  induction n with
  | zero => rfl
  | succ n ih =>
    rw [List.replicate_succ, List.cons_append]
    show retrieveLoop (ResultLine.record (some "request_0")
        (some (.parsedText samplePayload)) :: _) = _
    rw [retrieveLoop, ih]
    rfl

/-- C4 counterexample: one malformed line among 500 does not yield 499
Results and a warning — the unguarded `json.loads(line)` raises and aborts
the whole retrieval. -/
theorem retrieve_results_malformed_aborts :
    retrieve_results [] (List.replicate 250 sampleLine
        ++ ResultLine.malformed :: List.replicate 249 sampleLine)
      = .error "json.loads(line) raised JSONDecodeError" :=
  retrieveLoop_replicate_malformed _ 250

/-- C4 (amended): `retrieve_results` logs and skips the lines that lack a
`"response"` key and returns one Result per line that carries one — but only
provided every line parses as JSON; a line that fails `json.loads` raises and
aborts the retrieval (see the counterexample). -/
theorem retrieve_results_skips_responseless (mapping : List (String × String))
    (lines : List ResultLine)
    (h : ∀ l ∈ lines, lineWellFormed l = true) :
    ∃ rs ws, retrieve_results mapping lines = .ok (rs, ws) ∧
      rs.length = lines.countP lineHasResponse ∧
      ws.length = lines.countP (fun l => !lineHasResponse l) := by
  simp only [retrieve_results]
  induction lines with
  | nil => exact ⟨[], [], rfl, rfl, rfl⟩
  | cons l rest ih =>
    have hl := h l (List.mem_cons_self l rest)
    obtain ⟨rs, ws, hok, hrs, hws⟩ :=
      ih (fun x hx => h x (List.mem_cons_of_mem l hx))
    cases l with
    | malformed => simp [lineWellFormed] at hl
    | record cid resp =>
      cases resp with
      | none =>
        refine ⟨rs, cid :: ws, ?_, ?_, ?_⟩
        · rw [retrieveLoop, hok]
          rfl
        · simp [List.countP_cons, lineHasResponse, hrs]
        · simp [List.countP_cons, lineHasResponse, hws]
      | some body =>
        cases body with
        | badText => simp [lineWellFormed] at hl
        | parsedText p =>
          refine ⟨mkResult p :: rs, ws, ?_, ?_, ?_⟩
          · rw [retrieveLoop, hok]
            rfl
          · simp [List.countP_cons, lineHasResponse, hrs]
          · simp [List.countP_cons, lineHasResponse, hws]

theorem retrieve_results_skips_responseless_witness :
    ∃ rs ws,
      retrieve_results [] [sampleLine, ResultLine.record none none]
        = .ok (rs, ws) ∧
      rs.length
        = [sampleLine, ResultLine.record none none].countP lineHasResponse ∧
      ws.length
        = [sampleLine, ResultLine.record none none].countP
            (fun l => !lineHasResponse l) :=
  retrieve_results_skips_responseless [] _ (by decide)

theorem makeWaves_single (l : List α) (W : Nat) (h1 : 0 < l.length)
    (h2 : l.length ≤ W) : makeWaves l W = [l] := by
  have hW : 0 < W := by omega
  have hnw : numWaves l.length W = 1 := by
    rw [numWaves]
    exact Nat.div_eq_of_lt_le (by omega) (by omega)
  rw [makeWaves, hnw]
  rw [show List.range 1 = [0] from rfl]
  simp only [List.map_cons, List.map_nil]
  congr 1
  have hmin : min (0 * W + W) l.length = l.length := by omega
  rw [hmin, pySlice, Nat.zero_mul, List.drop_zero, Nat.sub_zero,
    List.take_length]

theorem split_into_batches_single (l : List α) (B : Nat) (h1 : 0 < l.length)
    (h2 : l.length ≤ B) : split_into_batches l B = [l] := by
  have hB : 0 < B := by omega
  have hnb : (l.length + B - 1) / B = 1 :=
    Nat.div_eq_of_lt_le (by omega) (by omega)
  rw [split_into_batches, hnb]
  rw [show List.range 1 = [0] from rfl]
  simp only [List.map_cons, List.map_nil]
  congr 1
  rw [pySlice, Nat.zero_mul, List.drop_zero, Nat.sub_zero, Nat.zero_add]
  exact List.take_of_length_le h2

theorem makeWaves_demo :
    makeWaves demoItems MAX_ARTICLES_PER_WAVE = [demoItems] := by
  have hlen : demoItems.length = 1000 := by simp [demoItems]
  refine makeWaves_single demoItems MAX_ARTICLES_PER_WAVE (by omega) ?_
  rw [hlen]
  decide

theorem split_demo :
    split_into_batches demoItems BATCH_SIZE = [demoItems] := by
  have hlen : demoItems.length = 1000 := by simp [demoItems]
  refine split_into_batches_single demoItems BATCH_SIZE (by omega) ?_
  rw [hlen]
  decide

theorem exists_first_wave (items : List α) (W : Nat) (h : 0 < items.length)
    (hW : 0 < W) :
    ∃ w ∈ makeWaves items W, w.length = min W items.length := by
  have hnw : 0 < numWaves items.length W := Nat.div_pos (by omega) hW
  refine ⟨_, List.mem_map.mpr ⟨0, List.mem_range.mpr hnw, rfl⟩, ?_⟩
  rw [length_pySlice]
  omega

theorem exists_full_batch (l : List α) (B : Nat) (hB : 0 < B)
    (hle : B ≤ l.length) :
    ∃ b ∈ split_into_batches l B, b.length = B := by
  have hb : 0 < (l.length + B - 1) / B := Nat.div_pos (by omega) hB
  refine ⟨_, List.mem_map.mpr ⟨0, List.mem_range.mpr hb, rfl⟩, ?_⟩
  rw [length_pySlice]
  omega

/-- C10 (implicit): under the default configuration the wave scheduler cuts
waves into `BATCH_SIZE = 1000`-item batches while `BatchProcessor` defaults
to `max_batch_size = BATCH_LIMIT = 500`, so every full-size batch produced by
the scheduler makes `prepare_batch_from_contents` raise
`ValueError("Batch size 1000 exceeds max 500. ...")` before any batch file is
written — no full-size batch is ever submitted; and every input with at least
`BATCH_SIZE` items yields at least one such full-size batch. -/
theorem default_config_rejects_full_batches :
    (∀ (items w b : List (WorkItem ι)),
      w ∈ makeWaves items MAX_ARTICLES_PER_WAVE →
      b ∈ split_into_batches w BATCH_SIZE → b.length = BATCH_SIZE →
      prepare_batch_from_contents BATCH_LIMIT b
        = .error
          "Batch size 1000 exceeds max 500. Split into multiple batches.") ∧
    (∀ items : List (WorkItem ι), BATCH_SIZE ≤ items.length →
      ∃ w ∈ makeWaves items MAX_ARTICLES_PER_WAVE,
        ∃ b ∈ split_into_batches w BATCH_SIZE, b.length = BATCH_SIZE) := by
  constructor
  · intro items w b _hw _hb hlen
    rw [prepare_batch_from_contents, hlen]
    rw [if_pos (by decide)]
    rfl
  · intro items hN
    have hB : BATCH_SIZE = 1000 := rfl
    have hW1000 : 1000 ≤ MAX_ARTICLES_PER_WAVE := by decide
    obtain ⟨w, hw, hwlen⟩ := exists_first_wave items MAX_ARTICLES_PER_WAVE
      (by omega) (by omega)
    obtain ⟨b, hb, hblen⟩ := exists_full_batch w BATCH_SIZE (by omega)
      (by rw [hwlen]; omega)
    exact ⟨w, hw, b, hb, hblen⟩

theorem default_config_rejects_full_batches_witness :
    prepare_batch_from_contents BATCH_LIMIT demoItems
      = .error
        "Batch size 1000 exceeds max 500. Split into multiple batches." ∧
    ∃ w ∈ makeWaves demoItems MAX_ARTICLES_PER_WAVE,
      ∃ b ∈ split_into_batches w BATCH_SIZE, b.length = BATCH_SIZE :=
  ⟨default_config_rejects_full_batches.1 demoItems demoItems demoItems
      (by rw [makeWaves_demo]; exact List.mem_singleton_self _)
      (by rw [split_demo]; exact List.mem_singleton_self _)
      (by simp [demoItems, BATCH_SIZE]),
   default_config_rejects_full_batches.2 demoItems
      (by simp [demoItems, BATCH_SIZE])⟩

theorem waveGo_sleep60_count (n : Nat) :
    ∀ (os : List BatchOutcome) (i : Nat),
      (waveGo n os i).count (WaveEvent.sleep 60)
        = os.count BatchOutcome.rateLimit429 := by
  intro os
  induction os with
  | nil => intro i; simp [waveGo]
  | cons o rest ih =>
    intro i
    rw [waveGo, List.count_append, ih (i + 1)]
    cases o with
    | ok =>
      by_cases h : i + 1 < n <;>
        simp [waveChunk, h, List.count_cons, List.count_nil]
    | prepareError => simp [waveChunk, List.count_cons]
    | rateLimit429 => simp [waveChunk, List.count_cons]; omega
    | submitOtherError => simp [waveChunk, List.count_cons]

theorem waveGo_submitCall_ge (n : Nat) :
    ∀ (os : List BatchOutcome) (i j : Nat),
      WaveEvent.submitCall j ∈ waveGo n os i → i ≤ j := by
  intro os
  induction os with
  | nil => intro i j h; simp [waveGo] at h
  | cons o rest ih =>
    intro i j h
    rw [waveGo] at h
    rcases List.mem_append.mp h with h1 | h2
    · cases o with
      | ok =>
        by_cases hin : i + 1 < n <;> simp [waveChunk, hin] at h1 <;> omega
      | prepareError => simp [waveChunk] at h1
      | rateLimit429 => simp [waveChunk] at h1; omega
      | submitOtherError => simp [waveChunk] at h1; omega
    · have := ih (i + 1) j h2
      omega

theorem waveGo_submitCall_count_le_one (n : Nat) :
    ∀ (os : List BatchOutcome) (i j : Nat),
      (waveGo n os i).count (WaveEvent.submitCall j) ≤ 1 := by
  intro os
  induction os with
  | nil => intro i j; simp [waveGo]
  | cons o rest ih =>
    intro i j
    rw [waveGo, List.count_append]
    by_cases hij : j = i
    · subst hij
      have htail : (waveGo n rest (j + 1)).count (WaveEvent.submitCall j)
          = 0 := by
        rw [List.count_eq_zero]
        intro hmem
        have := waveGo_submitCall_ge n rest (j + 1) j hmem
        omega
      rw [htail]
      cases o with
      | ok =>
        by_cases hin : j + 1 < n <;>
          simp [waveChunk, hin, List.count_cons]
      | prepareError => simp [waveChunk]
      | rateLimit429 => simp [waveChunk, List.count_cons]
      | submitOtherError => simp [waveChunk, List.count_cons]
    · have hchunk : (waveChunk n i o).count (WaveEvent.submitCall j) = 0 := by
        cases o with
        | ok =>
          by_cases hin : i + 1 < n <;>
            simp [waveChunk, hin, List.count_cons, hij]
        | prepareError => simp [waveChunk]
        | rateLimit429 => simp [waveChunk, List.count_cons, hij]
        | submitOtherError => simp [waveChunk, List.count_cons, hij]
      rw [hchunk]
      simpa using ih (i + 1) j

theorem waveGo_rateLimit_backoff (n : Nat) :
    ∀ (os : List BatchOutcome) (i j : Nat), i ≤ j → j < i + os.length →
      os.getD (j - i) .ok = .rateLimit429 →
      ∃ l r, waveGo n os i
        = l ++ WaveEvent.submitCall j :: WaveEvent.sleep 60 :: r := by
  intro os
  induction os with
  | nil => intro i j h1 h2 _; simp at h2; omega
  | cons o rest ih =>
    intro i j h1 h2 h3
    by_cases hij : j = i
    · subst hij
      have h0 : j - j = 0 := by omega
      rw [h0, List.getD_cons_zero] at h3
      subst h3
      exact ⟨[], waveGo n rest (j + 1), by rw [waveGo]; rfl⟩
    · have hji : j - i = (j - (i + 1)) + 1 := by omega
      rw [hji, List.getD_cons_succ] at h3
      obtain ⟨l, r, hlr⟩ := ih (i + 1) j (by omega)
        (by simp at h2; omega) h3
      refine ⟨waveChunk n i o ++ l, r, ?_⟩
      rw [waveGo, hlr, List.append_assoc]

theorem waveGo_ok_submitted (n : Nat) :
    ∀ (os : List BatchOutcome) (i j : Nat), i ≤ j → j < i + os.length →
      os.getD (j - i) .ok = .ok →
      WaveEvent.submitted j ∈ waveGo n os i := by
  intro os
  induction os with
  | nil => intro i j h1 h2 _; simp at h2; omega
  | cons o rest ih =>
    intro i j h1 h2 h3
    rw [waveGo]
    by_cases hij : j = i
    · subst hij
      have h0 : j - j = 0 := by omega
      rw [h0, List.getD_cons_zero] at h3
      subst h3
      apply List.mem_append_left
      by_cases hin : j + 1 < n <;> simp [waveChunk, hin]
    · have hji : j - i = (j - (i + 1)) + 1 := by omega
      rw [hji, List.getD_cons_succ] at h3
      exact List.mem_append_right _
        (ih (i + 1) j (by omega) (by simp at h2; omega) h3)

/-- C5 (amended): when a batch's submission raises a rate-limit ("429")
error, the loop backs off with `asyncio.sleep(60)` immediately after the
failed submission and then continues with the next batch — the failed batch
is NOT retried (`submit_batch` is called at most once per batch) — while the
wave is not aborted (every later successful batch is still submitted) and no
error propagates (the trace always covers the whole wave). -/
theorem submit_backoff_without_retry (outcomes : List BatchOutcome) :
    ((submitWave outcomes).count (WaveEvent.sleep 60)
        = outcomes.count BatchOutcome.rateLimit429) ∧
    (∀ i, (submitWave outcomes).count (WaveEvent.submitCall i) ≤ 1) ∧
    (∀ i, i < outcomes.length → outcomes.getD i .ok = .rateLimit429 →
      ∃ l r, submitWave outcomes
        = l ++ WaveEvent.submitCall i :: WaveEvent.sleep 60 :: r) ∧
    (∀ i, i < outcomes.length → outcomes.getD i .ok = .ok →
      WaveEvent.submitted i ∈ submitWave outcomes) := by
  refine ⟨waveGo_sleep60_count _ outcomes 0,
    fun i => waveGo_submitCall_count_le_one _ outcomes 0 i, ?_, ?_⟩
  · intro i hi hrl
    exact waveGo_rateLimit_backoff _ outcomes 0 i (Nat.zero_le i)
      (by omega) (by simpa using hrl)
  · intro i hi hok
    exact waveGo_ok_submitted _ outcomes 0 i (Nat.zero_le i)
      (by omega) (by simpa using hok)

/-- C5 counterexample: a wave of two batches where the first submission hits
a rate limit: the loop sleeps 60 seconds and moves on — batch 0 is submitted
exactly once (never retried) and never succeeds, while batch 1 is still
submitted. -/
theorem submit_rate_limited_batch_lost :
    (submitWave [BatchOutcome.rateLimit429, BatchOutcome.ok]).count
        (WaveEvent.submitCall 0) = 1 ∧
    WaveEvent.submitted 0
      ∉ submitWave [BatchOutcome.rateLimit429, BatchOutcome.ok] ∧
    submitWave [BatchOutcome.rateLimit429, BatchOutcome.ok]
      = [WaveEvent.submitCall 0, WaveEvent.sleep 60,
         WaveEvent.submitCall 1, WaveEvent.submitted 1] := by
  decide

theorem submit_backoff_without_retry_witness :
    (∃ l r, submitWave [BatchOutcome.rateLimit429, BatchOutcome.ok]
        = l ++ WaveEvent.submitCall 0 :: WaveEvent.sleep 60 :: r) ∧
    WaveEvent.submitted 1
      ∈ submitWave [BatchOutcome.rateLimit429, BatchOutcome.ok] :=
  ⟨(submit_backoff_without_retry
      [BatchOutcome.rateLimit429, BatchOutcome.ok]).2.2.1 0
      (by decide) (by decide),
   (submit_backoff_without_retry
      [BatchOutcome.rateLimit429, BatchOutcome.ok]).2.2.2 1
      (by decide) (by decide)⟩

theorem ceil_div_le (p mw k : Nat) (hp : 0 < p) (h : mw ≤ k * p) :
    (mw + p - 1) / p ≤ k := by
  have h2 : mw + p - 1 < (k + 1) * p := by
    have hkp : (k + 1) * p = k * p + p := by ring
    omega
  have h3 := (Nat.div_lt_iff_lt_mul hp).mpr h2
  omega

theorem lt_ceil_div (p mw k : Nat) (hp : 0 < p) (h : k * p < mw) :
    k + 1 ≤ (mw + p - 1) / p := by
  rw [Nat.le_div_iff_mul_le hp]
  have hkp : (k + 1) * p = k * p + p := by ring
  omega

theorem wait_go_true_iff (states : Nat → String) (p mw : Nat) :
    ∀ (fuel k : Nat), mw ≤ (k + fuel) * p →
      ((wait_go states p mw fuel k).1 = true ↔
        ∃ j, k ≤ j ∧ j * p < mw ∧ states j = "JOB_STATE_SUCCEEDED" ∧
          ∀ i, k ≤ i → i < j → isTerminalState (states i) = false) := by
  intro fuel
  induction fuel with
  | zero =>
    intro k hk
    have hk' : mw ≤ k * p := by
      have : (k + 0) * p = k * p := by ring
      omega
    constructor
    · intro h
      simp [wait_go] at h
    · rintro ⟨j, hkj, hjp, -, -⟩
      have h3 : k * p ≤ j * p := Nat.mul_le_mul_right p hkj
      omega
  | succ fuel ih =>
    intro k hk
    have hk1 : mw ≤ ((k + 1) + fuel) * p := by
      have : (k + 1) + fuel = k + (fuel + 1) := by omega
      rw [this]
      exact hk
    by_cases hkp : k * p < mw
    · by_cases h1 : states k = "JOB_STATE_SUCCEEDED"
      · have heq : wait_go states p mw (fuel + 1) k = (true, []) := by
          rw [wait_go, if_pos hkp]
          simp [h1]
        rw [heq]
        simp only [true_iff]
        exact ⟨k, Nat.le_refl k, hkp, h1, fun i h2 h3 => by omega⟩
      · by_cases h2f : states k = "JOB_STATE_FAILED"
        · have heq : wait_go states p mw (fuel + 1) k = (false, []) := by
            rw [wait_go, if_pos hkp]
            simp [h1, h2f]
          rw [heq]
          simp only [Bool.false_eq_true, false_iff]
          rintro ⟨j, hkj, hjp, hsucc, hprev⟩
          rcases Nat.lt_or_ge k j with hlt | hge
          · have := hprev k (Nat.le_refl k) hlt
            simp [isTerminalState, h2f] at this
          · have hjk : j = k := by omega
            exact h1 (hjk ▸ hsucc)
        · by_cases h2c : states k = "JOB_STATE_CANCELLED"
          · have heq : wait_go states p mw (fuel + 1) k = (false, []) := by
              rw [wait_go, if_pos hkp]
              simp [h1, h2c]
            rw [heq]
            simp only [Bool.false_eq_true, false_iff]
            rintro ⟨j, hkj, hjp, hsucc, hprev⟩
            rcases Nat.lt_or_ge k j with hlt | hge
            · have := hprev k (Nat.le_refl k) hlt
              simp [isTerminalState, h2c] at this
            · have hjk : j = k := by omega
              exact h1 (hjk ▸ hsucc)
          · have hnt : isTerminalState (states k) = false := by
              simp [isTerminalState, h1, h2f, h2c]
            have heq : (wait_go states p mw (fuel + 1) k).1
                = (wait_go states p mw fuel (k + 1)).1 := by
              rw [wait_go, if_pos hkp]
              simp [h1, h2f, h2c]
            rw [heq, ih (k + 1) hk1]
            constructor
            · rintro ⟨j, hkj, hjp, hsucc, hprev⟩
              refine ⟨j, by omega, hjp, hsucc, fun i hki hij => ?_⟩
              by_cases hik : i = k
              · rw [hik]
                exact hnt
              · exact hprev i (by omega) hij
            · rintro ⟨j, hkj, hjp, hsucc, hprev⟩
              have hjk : j ≠ k := fun hjk => h1 (hjk ▸ hsucc)
              exact ⟨j, by omega, hjp, hsucc,
                fun i hki hij => hprev i (by omega) hij⟩
    · have heq : wait_go states p mw (fuel + 1) k = (false, []) := by
        rw [wait_go, if_neg hkp]
      rw [heq]
      simp only [Bool.false_eq_true, false_iff]
      rintro ⟨j, hkj, hjp, -, -⟩
      have h3 : k * p ≤ j * p := Nat.mul_le_mul_right p hkj
      omega

theorem wait_go_no_cancel (states : Nat → String) (p mw : Nat) :
    ∀ (fuel k : Nat), WaitEvent.cancelJob ∉ (wait_go states p mw fuel k).2 := by
  intro fuel
  induction fuel with
  | zero => intro k; simp [wait_go]
  | succ fuel ih =>
    intro k
    rw [wait_go]
    split
    · split
      · simp
      · split
        · simp
        · simpa using ih (k + 1)
    · simp

theorem wait_go_all_nonterminal (states : Nat → String) (p mw : Nat)
    (hp : 0 < p)
    (hall : ∀ j, j * p < mw → isTerminalState (states j) = false) :
    ∀ (fuel k : Nat), mw ≤ (k + fuel) * p →
      wait_go states p mw fuel k
        = (false,
           List.replicate ((mw + p - 1) / p - k) (WaitEvent.sleep p)) := by
  intro fuel
  induction fuel with
  | zero =>
    intro k hk
    have hk' : mw ≤ k * p := by
      have : (k + 0) * p = k * p := by ring
      omega
    have hc := ceil_div_le p mw k hp hk'
    rw [show (mw + p - 1) / p - k = 0 from by omega]
    rfl
  | succ fuel ih =>
    intro k hk
    by_cases hkp : k * p < mw
    · have hnt := hall k hkp
      simp only [isTerminalState, Bool.or_eq_false_iff, beq_eq_false_iff_ne,
        ne_eq] at hnt
      have hk1 : mw ≤ ((k + 1) + fuel) * p := by
        have : (k + 1) + fuel = k + (fuel + 1) := by omega
        rw [this]
        exact hk
      have hck := lt_ceil_div p mw k hp hkp
      rw [wait_go, if_pos hkp, if_neg (by simp [hnt.1.1]),
        if_neg (by simp [hnt.1.2, hnt.2])]
      show ((wait_go states p mw fuel (k + 1)).1,
        WaitEvent.sleep p :: (wait_go states p mw fuel (k + 1)).2) = _
      rw [ih (k + 1) hk1,
        show (mw + p - 1) / p - k = ((mw + p - 1) / p - (k + 1)) + 1
          from by omega, List.replicate_succ]
    · have hk' : mw ≤ k * p := Nat.le_of_not_lt hkp
      have hc := ceil_div_le p mw k hp hk'
      rw [wait_go, if_neg hkp,
        show (mw + p - 1) / p - k = 0 from by omega]
      rfl

/-- C6: `wait_for_completion(job_id, poll_interval, max_wait_time)` polls in
a loop; it returns `True` iff the job reaches `JOB_STATE_SUCCEEDED` within
the polling window; it returns `False` (without raising) when the first
terminal state observed is `FAILED` or `CANCELLED`, and on timeout, in which
case it slept `poll_interval` after every (non-terminal) poll and never
issued a cancel — indeed no execution ever cancels the remote job. -/
theorem wait_for_completion_spec (states : Nat → String) (p mw : Nat)
    (hp : 0 < p) :
    ((wait_for_completion states p mw).1 = true ↔
      ∃ k, k * p < mw ∧ states k = "JOB_STATE_SUCCEEDED" ∧
        ∀ j, j < k → isTerminalState (states j) = false) ∧
    WaitEvent.cancelJob ∉ (wait_for_completion states p mw).2 ∧
    (∀ k, k * p < mw →
      (states k = "JOB_STATE_FAILED" ∨ states k = "JOB_STATE_CANCELLED") →
      (∀ j, j < k → isTerminalState (states j) = false) →
      (wait_for_completion states p mw).1 = false) ∧
    ((∀ k, k * p < mw → isTerminalState (states k) = false) →
      (wait_for_completion states p mw).1 = false ∧
      (wait_for_completion states p mw).2
        = List.replicate ((mw + p - 1) / p) (WaitEvent.sleep p)) := by
  have hfuel : mw ≤ (0 + (mw + 1)) * p := by
    have h1 := Nat.le_mul_of_pos_right (mw + 1) hp
    have h2 : (0 + (mw + 1)) * p = (mw + 1) * p := by ring
    omega
  have hiff := wait_go_true_iff states p mw (mw + 1) 0 hfuel
  refine ⟨?_, wait_go_no_cancel states p mw (mw + 1) 0, ?_, ?_⟩
  · show (wait_go states p mw (mw + 1) 0).1 = true ↔ _
    rw [hiff]
    constructor
    · rintro ⟨j, -, hjp, hsucc, hprev⟩
      exact ⟨j, hjp, hsucc, fun i hij => hprev i (Nat.zero_le i) hij⟩
    · rintro ⟨k, hkp, hsucc, hprev⟩
      exact ⟨k, Nat.zero_le k, hkp, hsucc, fun i _ hik => hprev i hik⟩
  · intro k hkp hterm hprev
    cases hb : (wait_for_completion states p mw).1
    · rfl
    · exfalso
      have hb' : (wait_go states p mw (mw + 1) 0).1 = true := hb
      obtain ⟨j, -, hjp, hsucc, hprev'⟩ := hiff.mp hb'
      rcases Nat.lt_trichotomy j k with h | h | h
      · have := hprev j h
        simp [isTerminalState, hsucc] at this
      · rw [h] at hsucc
        rcases hterm with h2 | h2 <;> rw [h2] at hsucc <;> simp at hsucc
      · have := hprev' k (Nat.zero_le k) h
        rcases hterm with h2 | h2 <;> simp [isTerminalState, h2] at this
  · intro hall
    have heq := wait_go_all_nonterminal states p mw hp hall (mw + 1) 0 hfuel
    constructor
    · show (wait_go states p mw (mw + 1) 0).1 = false
      rw [heq]
    · show (wait_go states p mw (mw + 1) 0).2 = _
      rw [heq]
      simp

theorem wait_for_completion_spec_witness :
    (wait_for_completion demoStates 7 100).1 = false :=
  (wait_for_completion_spec demoStates 7 100 (by decide)).2.2.1 1
    (by decide) (Or.inl rfl) (by decide)

theorem rateLimitStep_snd_eq_fst (minInterval last arrival : ℚ) :
    (rateLimitStep minInterval last arrival).2
      = (rateLimitStep minInterval last arrival).1 := by
  rw [rateLimitStep]
  split <;> rfl

theorem dispatchTimes_snd_eq_fst (minInterval : ℚ) (arrivals : Nat → ℚ)
    (k : Nat) :
    (dispatchTimes minInterval arrivals k).2
      = (dispatchTimes minInterval arrivals k).1 := by
  cases k with
  | zero => exact rateLimitStep_snd_eq_fst _ _ _
  | succ k => exact rateLimitStep_snd_eq_fst _ _ _

theorem startTime_succ_ge (minInterval : ℚ) (arrivals : Nat → ℚ) (k : Nat) :
    startTime minInterval arrivals k + minInterval
      ≤ startTime minInterval arrivals (k + 1) := by
  have hlast : (dispatchTimes minInterval arrivals k).2
      = startTime minInterval arrivals k :=
    dispatchTimes_snd_eq_fst minInterval arrivals k
  show startTime minInterval arrivals k + minInterval
      ≤ (dispatchTimes minInterval arrivals (k + 1)).1
  rw [dispatchTimes, hlast, rateLimitStep]
  split
  · rename_i h
    have : arrivals (k + 1)
        + (minInterval - (arrivals (k + 1) - startTime minInterval arrivals k))
        = startTime minInterval arrivals k + minInterval := by ring
    rw [this]
  · rename_i h
    push_neg at h
    linarith

/-- C9: between any two successive call starts through the rate limiter at
least `min_interval` elapses — a caller arriving before
`last_request_time + min_interval` sleeps the residual interval inside the
rate-limit lock before its call starts — so `N` sequential dispatches take
total elapsed time at least `(N − 1) * min_interval`; in particular with the
source constant `MIN_REQUEST_INTERVAL = 0.05`. -/
theorem rate_limiter_min_interval (arrivals : Nat → ℚ) (minInterval : ℚ) :
    (∀ k, startTime minInterval arrivals k + minInterval
        ≤ startTime minInterval arrivals (k + 1)) ∧
    (∀ n : Nat, startTime minInterval arrivals 0 + (n : ℚ) * minInterval
        ≤ startTime minInterval arrivals n) ∧
    (∀ k, startTime MIN_REQUEST_INTERVAL arrivals k + MIN_REQUEST_INTERVAL
        ≤ startTime MIN_REQUEST_INTERVAL arrivals (k + 1)) := by
  refine ⟨startTime_succ_ge minInterval arrivals, ?_,
    startTime_succ_ge MIN_REQUEST_INTERVAL arrivals⟩
  intro n
  induction n with
  | zero => simp
  | succ n ih =>
    have hstep := startTime_succ_ge minInterval arrivals n
    calc startTime minInterval arrivals 0 + ((n + 1 : Nat) : ℚ) * minInterval
        = (startTime minInterval arrivals 0 + (n : ℚ) * minInterval)
          + minInterval := by push_cast; ring
      _ ≤ startTime minInterval arrivals n + minInterval := by linarith
      _ ≤ startTime minInterval arrivals (n + 1) := hstep

end NewsClassification
